import Mathlib

/-!
Verification development for the InfiniteCanvas sparse LOD tile cache.

The embedding models the `TileManager` class (tile map, update/prune
lifecycle, load resolution, LOD pyramid generation, save path), the
`PersistenceManager` key-blob store boundary, and the dirty-tile flush in
`CanvasManager`.  JavaScript strings are modelled as lists of characters,
`performance.now()` timestamps and viewport coordinates as rationals, pixel
buffers as functions from byte index to byte value, and the fire-and-forget
asynchronous loads as explicit lists of started load requests plus separate
completion transitions on the tile map.
-/

namespace InfiniteCanvas

/-- JavaScript strings, modelled as lists of characters. -/
abbrev JStr := List Char

/-- JavaScript `String.prototype.split` with a single-character separator. -/
def splitChar (c : Char) : List Char → List (List Char)
  | [] => [[]]
  | ch :: rest =>
    if ch = c then [] :: splitChar c rest
    else
      match splitChar c rest with
      | [] => [[ch]]
      | g :: gs => (ch :: g) :: gs

/-- The character for a decimal digit (`0 ↦ '0'`, ..., `9 ↦ '9'`). -/
def digitCh (d : ℕ) : Char := Char.ofNat (48 + d)

/-- Decimal rendering of a natural number, most significant digit first.
Fuel-based so that it is structurally recursive. -/
def natToCharsAux : ℕ → ℕ → List Char
  | 0, _ => []
  | fuel + 1, n =>
    if n = 0 then [] else natToCharsAux fuel (n / 10) ++ [digitCh (n % 10)]

/-- Decimal rendering of a natural number, as JavaScript number-to-string
conversion produces for integral values. -/
def natToChars (n : ℕ) : List Char :=
  if n = 0 then ['0'] else natToCharsAux (n + 1) n

/-- Decimal rendering of an integer, with a leading minus sign when
negative. -/
def intToChars (n : ℤ) : List Char :=
  if n < 0 then '-' :: natToChars n.natAbs else natToChars n.toNat

/-- The numeric value of a decimal digit character, if it is one. -/
def charToDigit (c : Char) : Option ℕ :=
  if 48 ≤ c.toNat ∧ c.toNat ≤ 57 then some (c.toNat - 48) else none

/-- One step of decimal parsing: extend an accumulated value by one digit
character, failing on a non-digit. -/
def digitStep (acc : Option ℕ) (c : Char) : Option ℕ :=
  match acc, charToDigit c with
  | some a, some d => some (10 * a + d)
  | _, _ => none

/-- Parsing of a non-empty all-digit string into a natural number;
`none` on the empty string or any non-digit character (the defined
fragment of JavaScript `parseInt`). -/
def charsToNat (l : List Char) : Option ℕ :=
  if l.isEmpty then none else l.foldl digitStep (some 0)

/-- Parsing of an optionally minus-signed decimal string into an integer
(the defined fragment of JavaScript `parseInt`). -/
def charsToInt (l : List Char) : Option ℤ :=
  match l with
  | [] => none
  | c :: cs =>
    if c = '-' then
      match charsToNat cs with
      | some v => some (-(v : ℤ))
      | none => none
    else
      match charsToNat (c :: cs) with
      | some v => some ((v : ℤ))
      | none => none

/-- Modelled from the spec: the canonical 4-field tile key
`"{layerId}:{level}:{tx}:{ty}"`.  The final `TileManager` revision calls
`getTileKey(layerId, tx, ty, level)` and parses keys back as
`layerId:level:tx:ty`, but the 4-argument `getTileKey` definition itself is
missing from the provided sources (the shared-types snapshot only contains
the legacy 3-argument revision), so the generator is taken from the spec's
key string format. -/
def getTileKey (layerId : JStr) (tx ty : ℤ) (level : ℕ) : JStr :=
  layerId ++ ':' :: intToChars level ++ ':' :: intToChars tx ++ ':' :: intToChars ty

/-- The legacy 3-field key `"{layerId}:{tx}:{ty}"` from the shared-types
revision of `getTileKey` (WorkspaceLayout shared types). -/
def legacyGetTileKey (layerId : JStr) (tx ty : ℤ) : JStr :=
  layerId ++ ':' :: intToChars tx ++ ':' :: intToChars ty

/-- Parsing a tile key back out of the map, as `TileManager.getVisibleTiles`
does: a 4-field key is `layerId:level:tx:ty`; a legacy 3-field key
`layerId:tx:ty` is accepted and interpreted as level 0; anything else is
skipped. -/
def parseTileKey (key : JStr) : Option (JStr × ℤ × ℤ × ℤ) :=
  match splitChar ':' key with
  | [l, s1, s2, s3] =>
    match charsToInt s1, charsToInt s2, charsToInt s3 with
    | some lev, some tx, some ty => some (l, lev, tx, ty)
    | _, _, _ => none
  | [l, s1, s2] =>
    match charsToInt s1, charsToInt s2 with
    | some tx, some ty => some (l, 0, tx, ty)
    | _, _ => none
  | _ => none

/-- Tile size in pixels (`TILE_SIZE` in the shared types). -/
def TILE_SIZE : ℕ := 256

/-- Pixel buffers: byte index to byte value.  A tile's buffer occupies
indices below `TILE_SIZE * TILE_SIZE * 4` (RGBA8). -/
abbrev PixelBuf := ℕ → ℕ

/-- Raw blob bytes held by the persistent store. -/
abbrev Blob := List ℕ

/-- The persistent key-blob store (`PersistenceManager` tile store):
`none` models an absent key. -/
abbrev Store := JStr → Option Blob

/-- Status of a resident tile record. -/
inductive TileStatus
  | loading
  | ready
  | error
deriving DecidableEq, Repr

/-- A resident cache entry (`TileState` in `TileManager`): GPU texture
content (absent while loading or errored), status, and the
last-used timestamp. -/
structure TileState where
  texture : Option PixelBuf
  status : TileStatus
  lastUsedTimestamp : ℚ

/-- The sparse tile map owned by `TileManager` (`Map<string, TileState>`). -/
abbrev TileMap := JStr → Option TileState

/-- Setting one key of the tile map (JavaScript `Map.set`, or in-place
mutation of the record stored there). -/
def mapSet (m : TileMap) (k : JStr) (v : TileState) : TileMap :=
  fun q => if q = k then some v else m q

/-- Viewport supplied to `update` each frame (`ViewportState`):
world-space center, zoom factor, and screen size in pixels. -/
structure ViewportState where
  x : ℚ
  y : ℚ
  zoom : ℚ
  width : ℚ
  height : ℚ

/-- A layer, as far as the tile cache consumes it: its id and visibility. -/
structure Layer where
  id : JStr
  visible : Bool
deriving DecidableEq, Repr

/-- Writing a fully transparent buffer (`clearTexture`): all bytes zero. -/
def blank : PixelBuf := fun _ => 0

/-- Decoding a stored blob into a pixel buffer (`writeTexture` of the raw
RGBA bytes); bytes beyond the blob read as zero. -/
def blobToBuf (b : Blob) : PixelBuf := fun i => b.getD i 0

/-- Reading a tile's texture back into a blob of exactly
`TILE_SIZE * TILE_SIZE * 4` bytes (the readback in `saveTile`). -/
def bufToBlob (buf : PixelBuf) : Blob :=
  (List.range (TILE_SIZE * TILE_SIZE * 4)).map buf

/-- The debug checkerboard written into fresh base tiles of the background
layer (`writeDebugPattern`): red 2-pixel border, level-tinted checker
squares of 16 pixels, white elsewhere. -/
def debugPattern (tx ty : ℤ) (level : ℕ) : PixelBuf :=
  fun i =>
    let p := i / 4
    let ch := i % 4
    let x := p % TILE_SIZE
    let y := p / TILE_SIZE
    if TILE_SIZE ≤ y then 0
    else
      let r := if level = 0 then 200 else if level = 1 then 100 else 50
      let g := if level = 0 then 200 else if level = 1 then 150 else 50
      let b := if level = 0 then 200 else if level = 1 then 255 else 200
      if x < 2 ∨ y < 2 ∨ TILE_SIZE - 2 ≤ x ∨ TILE_SIZE - 2 ≤ y then
        if ch = 0 then 255 else if ch = 3 then 255 else 0
      else if (x / 16 + y / 16) % 2 = 0 then
        if ch = 0 then r else if ch = 1 then g else if ch = 2 then b else 255
      else 255

namespace TileManager

/-- Eviction timeout in milliseconds (`TIMEOUT` in `prune`). -/
def TIMEOUT : ℚ := 2000

/-- Greatest `L` with `2 ^ L ≤ r`, and `0` when `r < 1`; fuel-based so that
it is structurally recursive.  This is the exact value of
`Math.floor(Math.log2 r)` clamped at zero. -/
def lodLevelAux : ℕ → ℚ → ℕ
  | 0, _ => 0
  | fuel + 1, r => if 2 ≤ r then lodLevelAux fuel (r / 2) + 1 else 0

/-- The LOD level `update` selects:
`Math.max(0, Math.floor(Math.log2(1 / viewport.zoom)))`. -/
def lodLevel (zoom : ℚ) : ℕ :=
  lodLevelAux (⌊1 / zoom⌋.toNat + 1) (1 / zoom)

/-- A rectangle of tile indices. -/
structure TileRect where
  minTx : ℤ
  maxTx : ℤ
  minTy : ℤ
  maxTy : ℤ
deriving DecidableEq, Repr

/-- The visible tile index rectangle `update` computes: the floor-division
of the visible world rectangle's corners by the tile world size
`TILE_SIZE * 2 ^ level`. -/
def visibleRect (vp : ViewportState) : TileRect :=
  let level := lodLevel vp.zoom
  let scale : ℚ := 2 ^ level
  let tileSizeWorld : ℚ := (TILE_SIZE : ℚ) * scale
  let halfWidth := vp.width / 2 / vp.zoom
  let halfHeight := vp.height / 2 / vp.zoom
  ⟨⌊(vp.x - halfWidth) / tileSizeWorld⌋,
   ⌊(vp.x + halfWidth) / tileSizeWorld⌋,
   ⌊(vp.y - halfHeight) / tileSizeWorld⌋,
   ⌊(vp.y + halfHeight) / tileSizeWorld⌋⟩

/-- The integers from `a` to `b` inclusive, in order. -/
def intRange (a b : ℤ) : List ℤ :=
  (List.range (b + 1 - a).toNat).map (fun i => a + i)

/-- The `(layer, key)` pairs scanned by `update`'s load loop, in loop order:
every layer crossed with the visible rectangle expanded by the one-tile
buffer ring, keyed at the current LOD level. -/
def scanItems (vp : ViewportState) (layers : List Layer) : List (Layer × JStr) :=
  let level := lodLevel vp.zoom
  let r := visibleRect vp
  let txs := intRange (r.minTx - 1) (r.maxTx + 1)
  let tys := intRange (r.minTy - 1) (r.maxTy + 1)
  layers.flatMap fun layer =>
    txs.flatMap fun tx =>
      tys.map fun ty => (layer, getTileKey layer.id tx ty level)

/-- One step of `update`'s scan loop on `(tile map, started loads)`: an
existing record has its `lastUsedTimestamp` refreshed; an absent key of a
visible layer is reserved as a `loading` record and its load is started;
an absent key of an invisible layer is skipped. -/
def scanStep (now : ℚ) (acc : TileMap × List JStr) (item : Layer × JStr) :
    TileMap × List JStr :=
  match acc.1 item.2 with
  | some t => (mapSet acc.1 item.2 ⟨t.texture, t.status, now⟩, acc.2)
  | none =>
    if item.1.visible then
      (mapSet acc.1 item.2 ⟨none, TileStatus.loading, now⟩, acc.2 ++ [item.2])
    else acc

/-- The scan phase of `update`: the fold of `scanStep` over the scanned
items, starting from the current map with no loads started. -/
def scanTiles (now : ℚ) (items : List (Layer × JStr)) (m : TileMap) :
    TileMap × List JStr :=
  items.foldl (scanStep now) (m, [])

/-- The eviction scan (`prune`): every record whose `now - lastUsedTimestamp`
exceeds `TIMEOUT` is removed (and its texture, if any, destroyed),
regardless of status. -/
def prune (now : ℚ) (m : TileMap) : TileMap :=
  fun k =>
    match m k with
    | some t => if TIMEOUT < now - t.lastUsedTimestamp then none else some t
    | none => none

/-- The keys whose texture `prune` destroys: exactly the removed records
that hold a texture. -/
def pruneDestroyed (now : ℚ) (m : TileMap) : JStr → Bool :=
  fun k =>
    match m k with
    | some t => decide (TIMEOUT < now - t.lastUsedTimestamp) && t.texture.isSome
    | none => false

/-- The per-frame `update`: scan the required keys (refreshing or creating
records and starting loads), then prune stale records.  The second
component is the list of keys whose asynchronous load was started. -/
def update (vp : ViewportState) (layers : List Layer) (now : ℚ) (m : TileMap) :
    TileMap × List JStr :=
  let s := scanTiles now (scanItems vp layers) m
  (prune now s.1, s.2)

/-- The synchronous reservation of `forceLoadTile`: if the key is absent, a
`loading` record is inserted and its load started; if a record is already
resident (any status), nothing happens and no load is started. -/
def forceLoadTile (m : TileMap) (layerId : JStr) (tx ty : ℤ) (level : ℕ)
    (now : ℚ) : TileMap × List JStr :=
  let key := getTileKey layerId tx ty level
  match m key with
  | some _ => (m, [])
  | none => (mapSet m key ⟨none, TileStatus.loading, now⟩, [key])

/-- The pixel source for one child quadrant in `generateLODTile`: the
resident record if it is ready with a texture, else the persistent store's
blob for the child key, else nothing. -/
def childSource (m : TileMap) (store : Store) (ck : JStr) : Option PixelBuf :=
  match
    (match m ck with
     | some t => if t.status = TileStatus.ready then t.texture else none
     | none => none) with
  | some buf => some buf
  | none => (store ck).map blobToBuf

/-- Downsampling composition of the four child quadrants: each drawn child
is scaled into one quadrant by 2x2 box filtering; quadrants without a
source keep the zero-initialized texture content. -/
def composeLOD (q : ℕ → ℕ → Option PixelBuf) : PixelBuf :=
  fun i =>
    let p := i / 4
    let ch := i % 4
    let x := p % TILE_SIZE
    let y := p / TILE_SIZE
    if TILE_SIZE ≤ y then 0
    else
      match q (x / (TILE_SIZE / 2)) (y / (TILE_SIZE / 2)) with
      | none => 0
      | some src =>
        let lx := x % (TILE_SIZE / 2)
        let ly := y % (TILE_SIZE / 2)
        let t := fun (xx yy : ℕ) => src ((yy * TILE_SIZE + xx) * 4 + ch)
        (t (2 * lx) (2 * ly) + t (2 * lx + 1) (2 * ly) +
         t (2 * lx) (2 * ly + 1) + t (2 * lx + 1) (2 * ly + 1)) / 4

/-- The key of one of the four level-`(level-1)` children of a level-`level`
tile, at quadrant offset `(dx, dy)` with `dx, dy ∈ {0, 1}`. -/
def childKey (layerId : JStr) (level : ℕ) (tx ty : ℤ) (dx dy : ℤ) : JStr :=
  getTileKey layerId (2 * tx + dx) (2 * ty + dy) (level - 1)

/-- The content `generateLODTile` produces for a level-`level` tile
(`level > 0`): its four level-`(level-1)` children composed into quadrants;
if no child is found in cache or store, the tile is cleared to fully
transparent. -/
def generateLODTile (m : TileMap) (store : Store) (layerId : JStr)
    (level : ℕ) (tx ty : ℤ) : PixelBuf :=
  let q := fun (dx dy : ℤ) =>
    childSource m store (childKey layerId level tx ty dx dy)
  if (q 0 0).isSome || (q 1 0).isSome || (q 0 1).isSome || (q 1 1).isSome then
    composeLOD (fun dx dy => q dx dy)
  else blank

/-- The successful completion of `loadTileData` for a key: resolve the
content (store blob, else LOD composition for `level > 0`, else the debug
pattern for the background layer or a blank tile), then, if a record is
still resident at the key, store the texture and mark it ready; a record
evicted in the meantime silently discards the result. -/
def loadTileData (store : Store) (m : TileMap) (layerId : JStr)
    (tx ty : ℤ) (level : ℕ) : TileMap :=
  let key := getTileKey layerId tx ty level
  let buf : PixelBuf :=
    match store key with
    | some blob => blobToBuf blob
    | none =>
      if 0 < level then generateLODTile m store layerId level tx ty
      else if layerId = ("layer-0").data then debugPattern tx ty 0
      else blank
  match m key with
  | some t => mapSet m key ⟨some buf, TileStatus.ready, t.lastUsedTimestamp⟩
  | none => m

/-- The failure path of `loadTileData` (its `catch` block): if a record is
resident at the key, only its status is set to `error`; the texture field
is left as it is. -/
def loadTileError (m : TileMap) (key : JStr) : TileMap :=
  match m key with
  | some t => mapSet m key ⟨t.texture, TileStatus.error, t.lastUsedTimestamp⟩
  | none => m

/-- The save path (`saveTile`): a no-op unless the keyed record is resident
with a texture and status ready; otherwise the texture is read back and
put to the persistent store (the put may fail, modelled by `putOk`).
Returns the (unchanged) tile map, the resulting store, and the put that was
issued, if any. -/
def saveTile (m : TileMap) (store : Store) (putOk : JStr → Bool)
    (layerId : JStr) (tx ty : ℤ) (level : ℕ) :
    TileMap × Store × Option (JStr × Blob) :=
  let key := getTileKey layerId tx ty level
  match m key with
  | none => (m, store, none)
  | some t =>
    match t.texture with
    | none => (m, store, none)
    | some buf =>
      if t.status = TileStatus.ready then
        let blob := bufToBlob buf
        (m,
         (if putOk key then (fun k => if k = key then some blob else store k)
          else store),
         some (key, blob))
      else (m, store, none)

end TileManager

namespace CanvasManager

/-- The dirty-tile flush (`saveDirtyTiles`): each dirty key is split as the
3-field `layerId:tx:ty`, a save of that level-0 tile is started
(fire-and-forget), and then the whole dirty set is cleared synchronously,
regardless of whether any of the persistent writes succeed. -/
def saveDirtyTiles (m : TileMap) (store : Store) (putOk : JStr → Bool)
    (dirty : List JStr) : List JStr × Store :=
  let store' := dirty.foldl
    (fun st k =>
      match splitChar ':' k with
      | lid :: s1 :: s2 :: _ =>
        match charsToInt s1, charsToInt s2 with
        | some tx, some ty => (TileManager.saveTile m st putOk lid tx ty 0).2.1
        | _, _ => st
      | _ => st)
    store
  ([], store')

end CanvasManager

/-- The record invariant stated in the spec's data model: a record's pixel
buffer is present iff its status is ready. -/
def TextureStatusInv (m : TileMap) : Prop :=
  ∀ k t, m k = some t → (t.texture.isSome ↔ t.status = TileStatus.ready)

/-- The empty tile map. -/
def emptyMap : TileMap := fun _ => none

/-- The empty persistent store. -/
def emptyStore : Store := fun _ => none

/-- A map holding one ready level-0 tile with a blank texture for layer `a`
at tile (0,0), last used at time 0. -/
def mapReadyA : TileMap :=
  fun k =>
    if k = getTileKey ['a'] 0 0 0 then
      some ⟨some blank, TileStatus.ready, 0⟩
    else none

/-- A map holding one loading level-0 tile for layer `a` at tile (0,0),
last used at time 0. -/
def mapLoadingA : TileMap :=
  fun k =>
    if k = getTileKey ['a'] 0 0 0 then
      some ⟨none, TileStatus.loading, 0⟩
    else none

/-- A map holding one loading level-1 tile for layer `a` at tile (0,0),
last used at time 5. -/
def mapLoadingLOD : TileMap :=
  fun k =>
    if k = getTileKey ['a'] 0 0 1 then
      some ⟨none, TileStatus.loading, 5⟩
    else none

/-! ### Lemmas about the key codec -/

theorem splitChar_not_mem {c : Char} : ∀ {l : List Char}, c ∉ l → splitChar c l = [l]
  | [], _ => rfl
  | ch :: rest, h => by
    have hch : ¬ch = c := fun e => h (e ▸ List.mem_cons_self ch rest)
    have hr : c ∉ rest := fun e => h (List.mem_cons_of_mem ch e)
    simp only [splitChar, if_neg hch, splitChar_not_mem hr]

theorem splitChar_append {c : Char} (rest : List Char) :
    ∀ {a : List Char}, c ∉ a → splitChar c (a ++ c :: rest) = a :: splitChar c rest
  | [], _ => by simp [splitChar]
  | ch :: a', h => by
    have hch : ¬ch = c := fun e => h (e ▸ List.mem_cons_self ch a')
    have ha : c ∉ a' := fun e => h (List.mem_cons_of_mem ch e)
    have ih := splitChar_append rest ha
    simp only [List.cons_append, splitChar, if_neg hch, List.append_eq, ih]

theorem charToDigit_digitCh {d : ℕ} (hd : d < 10) : charToDigit (digitCh d) = some d := by
  interval_cases d <;> decide

theorem digitCh_ne_colon {d : ℕ} (hd : d < 10) : digitCh d ≠ ':' := by
  interval_cases d <;> decide

theorem digitCh_ne_minus {d : ℕ} (hd : d < 10) : digitCh d ≠ '-' := by
  interval_cases d <;> decide

theorem natToCharsAux_mem :
    ∀ (fuel n : ℕ) {c : Char}, c ∈ natToCharsAux fuel n → ∃ d, d < 10 ∧ c = digitCh d
  | 0, _, _, h => absurd h (List.not_mem_nil _)
  | fuel + 1, n, c, h => by
    by_cases hn : n = 0
    · simp [natToCharsAux, hn] at h
    · rw [natToCharsAux, if_neg hn] at h
      rcases List.mem_append.mp h with h' | h'
      · exact natToCharsAux_mem fuel (n / 10) h'
      · exact ⟨n % 10, Nat.mod_lt _ (by norm_num), List.mem_singleton.mp h'⟩

theorem natToCharsAux_foldl :
    ∀ (fuel n a : ℕ), n ≤ fuel →
      (natToCharsAux fuel n).foldl digitStep (some a) =
        some (a * 10 ^ (natToCharsAux fuel n).length + n)
  | 0, n, a, h => by
    have : n = 0 := Nat.le_zero.mp h
    subst this
    simp [natToCharsAux]
  | fuel + 1, n, a, h => by
    by_cases hn : n = 0
    · subst hn; simp [natToCharsAux]
    · have hlt : n / 10 < n := Nat.div_lt_self (Nat.pos_of_ne_zero hn) (by norm_num)
      have hle : n / 10 ≤ fuel := by omega
      have hmod : n % 10 < 10 := Nat.mod_lt n (by norm_num)
      rw [natToCharsAux, if_neg hn]
      rw [List.foldl_append, natToCharsAux_foldl fuel (n / 10) a hle]
      simp only [List.foldl_cons, List.foldl_nil, digitStep, charToDigit_digitCh hmod]
      simp only [List.length_append, List.length_cons, List.length_nil, Nat.zero_add]
      congr 1
      rw [pow_succ, ← mul_assoc]
      have key : ∀ s : ℕ, 10 * (s + n / 10) + n % 10 = s * 10 + n := by
        intro s; omega
      exact key _

theorem natToChars_ne_nil (n : ℕ) : natToChars n ≠ [] := by
  by_cases hn : n = 0
  · subst hn; simp [natToChars]
  · rw [natToChars, if_neg hn, natToCharsAux, if_neg hn]
    simp

theorem charsToNat_natToChars (n : ℕ) : charsToNat (natToChars n) = some n := by
  by_cases hn : n = 0
  · subst hn; decide
  · rw [natToChars, if_neg hn]
    have hne : natToCharsAux (n + 1) n ≠ [] := by
      rw [natToCharsAux, if_neg hn]; simp
    rw [charsToNat, if_neg (by simpa [List.isEmpty_iff] using hne)]
    rw [natToCharsAux_foldl (n + 1) n 0 (Nat.le_succ n)]
    simp

theorem natToChars_mem {n : ℕ} {c : Char} (h : c ∈ natToChars n) :
    ∃ d, d < 10 ∧ c = digitCh d := by
  by_cases hn : n = 0
  · subst hn
    simp [natToChars] at h
    exact ⟨0, by norm_num, by rw [h]; decide⟩
  · rw [natToChars, if_neg hn] at h
    exact natToCharsAux_mem _ _ h

theorem colon_not_mem_natToChars (n : ℕ) : ':' ∉ natToChars n := by
  intro h
  obtain ⟨d, hd, he⟩ := natToChars_mem h
  exact digitCh_ne_colon hd he.symm

theorem colon_not_mem_intToChars (n : ℤ) : ':' ∉ intToChars n := by
  rw [intToChars]
  split
  · intro h
    rcases List.mem_cons.mp h with h' | h'
    · exact absurd h' (by decide)
    · exact colon_not_mem_natToChars _ h'
  · exact colon_not_mem_natToChars _

theorem charsToInt_intToChars (n : ℤ) : charsToInt (intToChars n) = some n := by
  by_cases hn : n < 0
  · rw [intToChars, if_pos hn]
    rw [charsToInt, if_pos rfl, charsToNat_natToChars]
    show some (-(n.natAbs : ℤ)) = some n
    congr 1
    omega
  · rw [intToChars, if_neg hn]
    obtain ⟨c, cs, he⟩ := List.exists_cons_of_ne_nil (natToChars_ne_nil n.toNat)
    rw [he, charsToInt]
    have hc : c ∈ natToChars n.toNat := he ▸ List.mem_cons_self c cs
    obtain ⟨d, hd, hcd⟩ := natToChars_mem hc
    rw [if_neg (hcd ▸ digitCh_ne_minus hd), ← he, charsToNat_natToChars]
    show some ((n.toNat : ℤ)) = some n
    congr 1
    omega

theorem splitChar_getTileKey {lid : JStr} (h : ':' ∉ lid) (tx ty : ℤ) (level : ℕ) :
    splitChar ':' (getTileKey lid tx ty level) =
      [lid, intToChars level, intToChars tx, intToChars ty] := by
  rw [getTileKey]
  simp only [List.cons_append, List.append_assoc]
  rw [splitChar_append _ h,
    splitChar_append _ (colon_not_mem_intToChars _),
    splitChar_append _ (colon_not_mem_intToChars _),
    splitChar_not_mem (colon_not_mem_intToChars _)]

theorem parseTileKey_getTileKey {lid : JStr} (h : ':' ∉ lid) (tx ty : ℤ) (level : ℕ) :
    parseTileKey (getTileKey lid tx ty level) = some (lid, (level : ℤ), tx, ty) := by
  rw [parseTileKey, splitChar_getTileKey h]
  simp only [charsToInt_intToChars]

theorem parseTileKey_legacy {lid : JStr} (h : ':' ∉ lid) (tx ty : ℤ) :
    parseTileKey (legacyGetTileKey lid tx ty) = some (lid, 0, tx, ty) := by
  rw [legacyGetTileKey, parseTileKey]
  simp only [List.cons_append, List.append_assoc]
  rw [splitChar_append _ h,
    splitChar_append _ (colon_not_mem_intToChars _),
    splitChar_not_mem (colon_not_mem_intToChars _)]
  simp only [charsToInt_intToChars]

/-! ### Lemmas about the update scan and eviction -/

namespace TileManager

theorem mapSet_self {m : TileMap} {k : JStr} {v : TileState} (h : m k = some v) :
    mapSet m k v = m := by
  funext q
  rw [mapSet]
  split
  · next hq => rw [hq, h]
  · rfl

theorem mapSet_lookup_self (m : TileMap) (k : JStr) (v : TileState) :
    mapSet m k v k = some v := by
  rw [mapSet, if_pos rfl]

theorem mapSet_lookup_ne {q k : JStr} (m : TileMap) (v : TileState) (h : q ≠ k) :
    mapSet m k v q = m q := by
  rw [mapSet, if_neg h]

theorem scanStep_lookup_ne {now : ℚ} {acc : TileMap × List JStr}
    {item : Layer × JStr} {k : JStr} (h : k ≠ item.2) :
    (scanStep now acc item).1 k = acc.1 k := by
  cases hl : acc.1 item.2 with
  | some t =>
    simp only [scanStep, hl]
    exact mapSet_lookup_ne _ _ h
  | none =>
    by_cases hv : item.1.visible = true
    · simp only [scanStep, hl, if_pos hv]
      exact mapSet_lookup_ne _ _ h
    · simp only [scanStep, hl, if_neg hv]

theorem scanStep_isSome {now : ℚ} {acc : TileMap × List JStr}
    {item : Layer × JStr} {k : JStr} (h : (acc.1 k).isSome) :
    ((scanStep now acc item).1 k).isSome := by
  by_cases hk : k = item.2
  · subst hk
    cases hl : acc.1 item.2 with
    | some t => simp only [scanStep, hl, mapSet_lookup_self, Option.isSome_some]
    | none => rw [hl] at h; simp at h
  · rw [scanStep_lookup_ne hk]
    exact h

theorem scanStep_refreshed {now : ℚ} {acc : TileMap × List JStr}
    {item : Layer × JStr} {k : JStr} {tex : Option PixelBuf} {st : TileStatus}
    (h : acc.1 k = some ⟨tex, st, now⟩) :
    (scanStep now acc item).1 k = some ⟨tex, st, now⟩ := by
  by_cases hk : k = item.2
  · subst hk
    simp only [scanStep, h]
    exact mapSet_lookup_self _ _ _
  · rw [scanStep_lookup_ne hk]
    exact h

theorem scanStep_loads_mono {now : ℚ} {acc : TileMap × List JStr}
    {item : Layer × JStr} {k : JStr} (h : k ∈ acc.2) :
    k ∈ (scanStep now acc item).2 := by
  cases hl : acc.1 item.2 with
  | some t => simp only [scanStep, hl]; exact h
  | none =>
    by_cases hv : item.1.visible = true
    · simp only [scanStep, hl, if_pos hv]
      exact List.mem_append_left _ h
    · simp only [scanStep, hl, if_neg hv]
      exact h

theorem scanStep_loads_sub {now : ℚ} {acc : TileMap × List JStr}
    {item : Layer × JStr} {k : JStr} (h : k ∈ (scanStep now acc item).2) :
    k ∈ acc.2 ∨ (acc.1 k = none ∧ k = item.2 ∧ item.1.visible = true) := by
  cases hl : acc.1 item.2 with
  | some t => rw [scanStep, hl] at h; exact Or.inl h
  | none =>
    by_cases hv : item.1.visible = true
    · simp only [scanStep, hl, if_pos hv] at h
      rcases List.mem_append.mp h with h' | h'
      · exact Or.inl h'
      · have hk := List.mem_singleton.mp h'
        exact Or.inr ⟨hk ▸ hl, hk, hv⟩
    · simp only [scanStep, hl, if_neg hv] at h
      exact Or.inl h

theorem scanStep_resident_not_load (now : ℚ) (acc : TileMap × List JStr)
    (item : Layer × JStr) {k : JStr} (h1 : (acc.1 k).isSome) (h2 : k ∉ acc.2) :
    ((scanStep now acc item).1 k).isSome ∧ k ∉ (scanStep now acc item).2 := by
  refine ⟨scanStep_isSome h1, fun hmem => ?_⟩
  rcases scanStep_loads_sub hmem with h' | ⟨hn, _, _⟩
  · exact h2 h'
  · rw [hn] at h1; simp at h1

theorem scanStep_wf (now : ℚ) (acc : TileMap × List JStr) (item : Layer × JStr)
    (h1 : acc.2.Nodup) (h2 : ∀ k ∈ acc.2, (acc.1 k).isSome) :
    (scanStep now acc item).2.Nodup ∧
      ∀ k ∈ (scanStep now acc item).2, ((scanStep now acc item).1 k).isSome := by
  cases hl : acc.1 item.2 with
  | some t =>
    simp only [scanStep, hl]
    refine ⟨h1, fun k hk => ?_⟩
    by_cases hke : k = item.2
    · subst hke
      simp [mapSet_lookup_self]
    · rw [mapSet_lookup_ne _ _ hke]
      exact h2 k hk
  | none =>
    by_cases hv : item.1.visible = true
    · simp only [scanStep, hl, if_pos hv]
      constructor
      · refine List.Nodup.append h1 (List.nodup_singleton _) ?_
        intro k hk hk'
        have hkk := List.mem_singleton.mp hk'
        have := h2 k hk
        rw [hkk, hl] at this
        simp at this
      · intro k hk
        by_cases hke : k = item.2
        · subst hke
          simp [mapSet_lookup_self]
        · rw [mapSet_lookup_ne _ _ hke]
          rcases List.mem_append.mp hk with h' | h'
          · exact h2 k h'
          · exact absurd (List.mem_singleton.mp h') hke
    · simp only [scanStep, hl, if_neg hv]
      exact ⟨h1, h2⟩

theorem scanFold_lookup_ne {k : JStr} :
    ∀ (now : ℚ) (items : List (Layer × JStr)) (acc : TileMap × List JStr),
      (∀ it ∈ items, it.2 ≠ k) →
      ((items.foldl (scanStep now) acc).1 k = acc.1 k)
  | _, [], _, _ => rfl
  | now, it :: rest, acc, h => by
    rw [List.foldl_cons]
    rw [scanFold_lookup_ne now rest _ (fun i hi => h i (List.mem_cons_of_mem it hi))]
    exact scanStep_lookup_ne fun e => h it (List.mem_cons_self it rest) e.symm

theorem scanFold_isSome {k : JStr} :
    ∀ (now : ℚ) (items : List (Layer × JStr)) (acc : TileMap × List JStr),
      (acc.1 k).isSome → (((items.foldl (scanStep now) acc).1 k).isSome)
  | _, [], _, h => h
  | now, it :: rest, acc, h => by
    rw [List.foldl_cons]
    exact scanFold_isSome now rest _ (scanStep_isSome h)

theorem scanFold_refreshed {k : JStr} {tex : Option PixelBuf}
    {st : TileStatus} :
    ∀ (now : ℚ) (items : List (Layer × JStr)) (acc : TileMap × List JStr),
      acc.1 k = some ⟨tex, st, now⟩ →
      ((items.foldl (scanStep now) acc).1 k = some ⟨tex, st, now⟩)
  | _, [], _, h => h
  | now, it :: rest, acc, h => by
    rw [List.foldl_cons]
    exact scanFold_refreshed now rest _ (scanStep_refreshed h)

theorem scanFold_resident_not_load {k : JStr} :
    ∀ (now : ℚ) (items : List (Layer × JStr)) (acc : TileMap × List JStr),
      (acc.1 k).isSome → k ∉ acc.2 →
      (((items.foldl (scanStep now) acc).1 k).isSome ∧
        k ∉ (items.foldl (scanStep now) acc).2)
  | _, [], _, h1, h2 => ⟨h1, h2⟩
  | now, it :: rest, acc, h1, h2 => by
    rw [List.foldl_cons]
    obtain ⟨h1', h2'⟩ := scanStep_resident_not_load now acc it h1 h2
    exact scanFold_resident_not_load now rest _ h1' h2'

theorem scanFold_wf :
    ∀ (now : ℚ) (items : List (Layer × JStr)) (acc : TileMap × List JStr),
      acc.2.Nodup → (∀ k ∈ acc.2, (acc.1 k).isSome) →
      ((items.foldl (scanStep now) acc).2.Nodup ∧
        ∀ k ∈ (items.foldl (scanStep now) acc).2,
          ((items.foldl (scanStep now) acc).1 k).isSome)
  | _, [], _, h1, h2 => ⟨h1, h2⟩
  | now, it :: rest, acc, h1, h2 => by
    rw [List.foldl_cons]
    obtain ⟨h1', h2'⟩ := scanStep_wf now acc it h1 h2
    exact scanFold_wf now rest _ h1' h2'

theorem scanFold_loads_origin {k : JStr} :
    ∀ (now : ℚ) (items : List (Layer × JStr)) (acc : TileMap × List JStr),
      k ∈ (items.foldl (scanStep now) acc).2 →
      (k ∈ acc.2 ∨ ∃ la, (la, k) ∈ items ∧ la.visible = true)
  | _, [], _, h => Or.inl h
  | now, it :: rest, acc, h => by
    rw [List.foldl_cons] at h
    rcases scanFold_loads_origin now rest _ h with h' | ⟨la, hla, hv⟩
    · rcases scanStep_loads_sub h' with h'' | ⟨_, hkk, hv⟩
      · exact Or.inl h''
      · refine Or.inr ⟨it.1, ?_, hv⟩
        have he : it = (it.1, k) := by rw [hkk]
        rw [← he]
        exact List.mem_cons_self it rest
    · exact Or.inr ⟨la, List.mem_cons_of_mem it hla, hv⟩

theorem scanFold_refresh_main {k : JStr} {la : Layer} {t : TileState} :
    ∀ (now : ℚ) (items : List (Layer × JStr)) (acc : TileMap × List JStr),
      (la, k) ∈ items → acc.1 k = some t →
      ((items.foldl (scanStep now) acc).1 k = some ⟨t.texture, t.status, now⟩)
  | _, [], _, hm, _ => absurd hm (List.not_mem_nil _)
  | now, it :: rest, acc, hm, h => by
    rw [List.foldl_cons]
    by_cases hk : it.2 = k
    · have hstep : (scanStep now acc it).1 k = some ⟨t.texture, t.status, now⟩ := by
        simp only [scanStep, hk, h]
        exact mapSet_lookup_self _ _ _
      exact scanFold_refreshed now rest _ hstep
    · rcases List.mem_cons.mp hm with he | hrest
      · exact absurd (congrArg Prod.snd he.symm) hk
      · have hstep : (scanStep now acc it).1 k = some t := by
          rw [scanStep_lookup_ne (fun e => hk e.symm)]
          exact h
        exact scanFold_refresh_main now rest _ hrest hstep

theorem scanStep_now_self {now : ℚ} {acc : TileMap × List JStr}
    {item : Layer × JStr} :
    ∀ t', (scanStep now acc item).1 item.2 = some t' → t'.lastUsedTimestamp = now := by
  intro t' h
  cases hl : acc.1 item.2 with
  | some t =>
    simp only [scanStep, hl, mapSet_lookup_self] at h
    injection h with h2
    rw [← h2]
  | none =>
    by_cases hv : item.1.visible = true
    · simp only [scanStep, hl, if_pos hv, mapSet_lookup_self] at h
      injection h with h2
      rw [← h2]
    · simp only [scanStep, hl, if_neg hv] at h
      simp at h

theorem scanStep_now_stable {now : ℚ} {acc : TileMap × List JStr}
    {item : Layer × JStr} {k : JStr}
    (hD : ∀ t', acc.1 k = some t' → t'.lastUsedTimestamp = now) :
    ∀ t', (scanStep now acc item).1 k = some t' → t'.lastUsedTimestamp = now := by
  intro t' h
  by_cases hk : k = item.2
  · exact scanStep_now_self t' (hk ▸ h)
  · rw [scanStep_lookup_ne hk] at h
    exact hD t' h

theorem scanFold_now_stable {k : JStr} :
    ∀ (now : ℚ) (items : List (Layer × JStr)) (acc : TileMap × List JStr),
      (∀ t', acc.1 k = some t' → t'.lastUsedTimestamp = now) →
      ∀ t', (items.foldl (scanStep now) acc).1 k = some t' →
        t'.lastUsedTimestamp = now
  | _, [], _, hD => hD
  | now, it :: rest, acc, hD => by
    rw [List.foldl_cons]
    exact scanFold_now_stable now rest _ (scanStep_now_stable hD)

theorem scanFold_now_scanned {k : JStr} {la : Layer} :
    ∀ (now : ℚ) (items : List (Layer × JStr)) (acc : TileMap × List JStr),
      (la, k) ∈ items →
      ∀ t', (items.foldl (scanStep now) acc).1 k = some t' →
        t'.lastUsedTimestamp = now
  | _, [], _, hm => absurd hm (List.not_mem_nil _)
  | now, it :: rest, acc, hm => by
    rw [List.foldl_cons]
    by_cases hk : k = it.2
    · exact scanFold_now_stable now rest _
        (fun t' h => scanStep_now_self t' (hk ▸ h))
    · rcases List.mem_cons.mp hm with he | hrest
      · exact absurd (congrArg Prod.snd he) hk
      · exact scanFold_now_scanned now rest _ hrest

theorem scanFold_visible_some {k : JStr} {la : Layer} :
    ∀ (now : ℚ) (items : List (Layer × JStr)) (acc : TileMap × List JStr),
      (la, k) ∈ items → la.visible = true →
      (((items.foldl (scanStep now) acc).1 k).isSome)
  | _, [], _, hm, _ => absurd hm (List.not_mem_nil _)
  | now, it :: rest, acc, hm, hv => by
    rw [List.foldl_cons]
    rcases List.mem_cons.mp hm with he | hrest
    · have hstep : ((scanStep now acc it).1 k).isSome := by
        rw [← he]
        cases hl : acc.1 k with
        | some t =>
          simp only [scanStep, hl, mapSet_lookup_self, Option.isSome_some]
        | none =>
          simp only [scanStep, hl, if_pos hv, mapSet_lookup_self, Option.isSome_some]
      exact scanFold_isSome now rest _ hstep
    · exact scanFold_visible_some now rest _ hrest hv

theorem tileState_eta {t : TileState} {now : ℚ} (h : t.lastUsedTimestamp = now) :
    (⟨t.texture, t.status, now⟩ : TileState) = t := by
  cases t
  simp_all

theorem scanFold_id {now : ℚ} :
    ∀ {items : List (Layer × JStr)} {acc : TileMap × List JStr},
      (∀ it ∈ items,
        (∀ t', acc.1 it.2 = some t' → t'.lastUsedTimestamp = now) ∧
        (it.1.visible = true → (acc.1 it.2).isSome)) →
      items.foldl (scanStep now) acc = acc
  | [], _, _ => rfl
  | it :: rest, acc, h => by
    rw [List.foldl_cons]
    have hstep : scanStep now acc it = acc := by
      obtain ⟨hD, hV⟩ := h it (List.mem_cons_self it rest)
      cases hl : acc.1 it.2 with
      | some t =>
        have hnow := hD t hl
        simp only [scanStep, hl, tileState_eta hnow, mapSet_self hl]
      | none =>
        by_cases hv : it.1.visible = true
        · have := hV hv
          rw [hl] at this
          simp at this
        · simp only [scanStep, hl, if_neg hv]
    rw [hstep]
    exact scanFold_id (fun i hi => h i (List.mem_cons_of_mem it hi))

theorem prune_lookup_none {now : ℚ} {m : TileMap} {k : JStr} (h : m k = none) :
    prune now m k = none := by
  simp only [prune, h]

theorem prune_lookup_keep {now : ℚ} {m : TileMap} {k : JStr} {t : TileState}
    (h : m k = some t) (hfresh : ¬TIMEOUT < now - t.lastUsedTimestamp) :
    prune now m k = some t := by
  simp only [prune, h]
  rw [if_neg hfresh]

theorem prune_lookup_drop {now : ℚ} {m : TileMap} {k : JStr} {t : TileState}
    (h : m k = some t) (hstale : TIMEOUT < now - t.lastUsedTimestamp) :
    prune now m k = none := by
  simp only [prune, h]
  rw [if_pos hstale]

theorem prune_subset {now : ℚ} {m : TileMap} {k : JStr} {t : TileState}
    (h : prune now m k = some t) : m k = some t := by
  cases hl : m k with
  | some t' =>
    simp only [prune, hl] at h
    split at h
    · simp at h
    · injection h with h2
      rw [h2]
  | none =>
    simp only [prune, hl] at h
    exact h

theorem scanFold_loads_mono {k : JStr} :
    ∀ (now : ℚ) (items : List (Layer × JStr)) (acc : TileMap × List JStr),
      k ∈ acc.2 → k ∈ (items.foldl (scanStep now) acc).2
  | _, [], _, h => h
  | now, it :: rest, acc, h => by
    rw [List.foldl_cons]
    exact scanFold_loads_mono now rest _ (scanStep_loads_mono h)

theorem scanStep_some_origin {now : ℚ} {acc : TileMap × List JStr}
    {item : Layer × JStr} {k : JStr}
    (h : ((scanStep now acc item).1 k).isSome) :
    (acc.1 k).isSome ∨ k ∈ (scanStep now acc item).2 := by
  by_cases hk : k = item.2
  · subst hk
    cases hl : acc.1 item.2 with
    | some t => exact Or.inl rfl
    | none =>
      by_cases hv : item.1.visible = true
      · refine Or.inr ?_
        simp only [scanStep, hl, if_pos hv]
        exact List.mem_append_right _ (List.mem_singleton.mpr rfl)
      · simp only [scanStep, hl, if_neg hv, Option.isSome_none] at h
        exact absurd h (by simp)
  · rw [scanStep_lookup_ne hk] at h
    exact Or.inl h

theorem scanFold_some_origin {k : JStr} :
    ∀ (now : ℚ) (items : List (Layer × JStr)) (acc : TileMap × List JStr),
      ((items.foldl (scanStep now) acc).1 k).isSome →
      ((acc.1 k).isSome ∨ k ∈ (items.foldl (scanStep now) acc).2)
  | _, [], _, h => Or.inl h
  | now, it :: rest, acc, h => by
    rw [List.foldl_cons] at h ⊢
    rcases scanFold_some_origin now rest _ h with h' | h'
    · rcases scanStep_some_origin h' with h'' | h''
      · exact Or.inl h''
      · exact Or.inr (scanFold_loads_mono now rest _ h'')
    · exact Or.inr h'

theorem mapSet_inv {m : TileMap} {k : JStr} {v : TileState}
    (hm : TextureStatusInv m)
    (hv : v.texture.isSome ↔ v.status = TileStatus.ready) :
    TextureStatusInv (mapSet m k v) := by
  intro k' t' h'
  by_cases hk : k' = k
  · rw [hk, mapSet_lookup_self] at h'
    injection h' with h2
    rw [← h2]
    exact hv
  · rw [mapSet_lookup_ne _ _ hk] at h'
    exact hm k' t' h'

theorem scanStep_inv {now : ℚ} {acc : TileMap × List JStr} {item : Layer × JStr}
    (hm : TextureStatusInv acc.1) : TextureStatusInv (scanStep now acc item).1 := by
  cases hl : acc.1 item.2 with
  | some t =>
    simp only [scanStep, hl]
    exact mapSet_inv hm (hm item.2 t hl)
  | none =>
    by_cases hv : item.1.visible = true
    · simp only [scanStep, hl, if_pos hv]
      exact mapSet_inv hm (by simp)
    · simp only [scanStep, hl, if_neg hv]
      exact hm

theorem scanFold_inv :
    ∀ (now : ℚ) (items : List (Layer × JStr)) (acc : TileMap × List JStr),
      TextureStatusInv acc.1 → TextureStatusInv (items.foldl (scanStep now) acc).1
  | _, [], _, h => h
  | now, it :: rest, acc, h => by
    rw [List.foldl_cons]
    exact scanFold_inv now rest _ (scanStep_inv h)

theorem prune_inv {now : ℚ} {m : TileMap} (hm : TextureStatusInv m) :
    TextureStatusInv (prune now m) :=
  fun k t h => hm k t (prune_subset h)

theorem loadTileData_absent {store : Store} {m : TileMap} {lid : JStr}
    {tx ty : ℤ} {level : ℕ} (h : m (getTileKey lid tx ty level) = none) :
    loadTileData store m lid tx ty level = m := by
  simp only [loadTileData, h]

theorem loadTileData_resident (store : Store) {m : TileMap} {lid : JStr}
    {tx ty : ℤ} {level : ℕ} {t : TileState}
    (h : m (getTileKey lid tx ty level) = some t) :
    ∃ buf, loadTileData store m lid tx ty level =
      mapSet m (getTileKey lid tx ty level)
        ⟨some buf, TileStatus.ready, t.lastUsedTimestamp⟩ := by
  refine ⟨match store (getTileKey lid tx ty level) with
    | some blob => blobToBuf blob
    | none =>
      if 0 < level then generateLODTile m store lid level tx ty
      else if lid = ("layer-0").data then debugPattern tx ty 0 else blank, ?_⟩
  simp only [loadTileData, h]

theorem loadTileError_absent {m : TileMap} {k : JStr} (h : m k = none) :
    loadTileError m k = m := by
  simp only [loadTileError, h]

theorem loadTileError_resident {m : TileMap} {k : JStr} {t : TileState}
    (h : m k = some t) :
    loadTileError m k = mapSet m k ⟨t.texture, TileStatus.error, t.lastUsedTimestamp⟩ := by
  simp only [loadTileError, h]

theorem saveTile_store_of_putFail {m : TileMap} {store : Store}
    {putOk : JStr → Bool} {lid : JStr} {tx ty : ℤ} {level : ℕ}
    (h : putOk (getTileKey lid tx ty level) = false) :
    (saveTile m store putOk lid tx ty level).2.1 = store := by
  cases hm : m (getTileKey lid tx ty level) with
  | none => simp only [saveTile, hm]
  | some t =>
    cases ht : t.texture with
    | none => simp only [saveTile, hm, ht]
    | some buf =>
      by_cases hs : t.status = TileStatus.ready
      · simp [saveTile, hm, ht, if_pos hs, h]
      · simp only [saveTile, hm, ht, if_neg hs]

theorem lodLevelAux_spec :
    ∀ (fuel : ℕ) (r : ℚ), 0 < r → r < 2 ^ fuel →
      (2 : ℚ) ^ lodLevelAux fuel r ≤ max r 1 ∧
        max r 1 < 2 ^ (lodLevelAux fuel r + 1)
  | 0, r, _, hb => by
    rw [pow_zero] at hb
    have hm : max r 1 = 1 := max_eq_right hb.le
    rw [lodLevelAux, hm]
    norm_num
  | fuel + 1, r, hr, hb => by
    by_cases h2 : (2 : ℚ) ≤ r
    · have hr2 : 0 < r / 2 := by positivity
      have hb2 : r / 2 < 2 ^ fuel := by
        rw [div_lt_iff₀ (by norm_num : (0 : ℚ) < 2), ← pow_succ]
        exact hb
      obtain ⟨hle, hlt⟩ := lodLevelAux_spec fuel (r / 2) hr2 hb2
      have h1 : (1 : ℚ) ≤ r / 2 := by linarith
      rw [max_eq_left h1] at hle hlt
      rw [lodLevelAux, if_pos h2, max_eq_left (by linarith : (1 : ℚ) ≤ r)]
      constructor
      · rw [pow_succ]
        nlinarith
      · rw [pow_succ]
        nlinarith
    · push_neg at h2
      rw [lodLevelAux, if_neg (not_le.mpr h2)]
      constructor
      · rw [pow_zero]
        exact le_max_right r 1
      · rw [zero_add, pow_one]
        exact max_lt h2 one_lt_two

theorem lt_two_pow_floor_succ {r : ℚ} (hr : 0 < r) : r < 2 ^ (⌊r⌋.toNat + 1) := by
  have h1 : r < ⌊r⌋ + 1 := Int.lt_floor_add_one r
  have h2 : ((⌊r⌋ : ℚ)) ≤ ((⌊r⌋.toNat : ℚ)) := by
    exact_mod_cast Int.self_le_toNat ⌊r⌋
  have h3 : ((⌊r⌋.toNat : ℚ)) + 1 ≤ 2 ^ (⌊r⌋.toNat + 1) := by
    exact_mod_cast (Nat.lt_two_pow (⌊r⌋.toNat + 1)).le
  linarith

theorem lodLevel_char {zoom : ℚ} (h : 0 < zoom) :
    (2 : ℚ) ^ lodLevel zoom ≤ max (1 / zoom) 1 ∧
      max (1 / zoom) 1 < 2 ^ (lodLevel zoom + 1) := by
  have hr : 0 < 1 / zoom := by positivity
  exact lodLevelAux_spec _ _ hr (lt_two_pow_floor_succ hr)

theorem lodLevel_eq_log {zoom : ℚ} (h : 0 < zoom) :
    ((lodLevel zoom : ℤ)) = max 0 (Int.log 2 (1 / zoom)) := by
  have hr : 0 < 1 / zoom := by positivity
  obtain ⟨hle, hlt⟩ := lodLevel_char h
  by_cases h1 : (1 : ℚ) ≤ 1 / zoom
  · rw [max_eq_left h1] at hle hlt
    have hlog_ge : ((lodLevel zoom : ℤ)) ≤ Int.log 2 (1 / zoom) := by
      rw [← Int.zpow_le_iff_le_log (by norm_num) hr, zpow_natCast]
      exact_mod_cast hle
    have hlog_lt : Int.log 2 (1 / zoom) < (lodLevel zoom : ℤ) + 1 := by
      rw [← Int.lt_zpow_iff_log_lt (by norm_num) hr]
      rw [show ((lodLevel zoom : ℤ) + 1) = ((lodLevel zoom + 1 : ℕ) : ℤ) by push_cast; ring,
        zpow_natCast]
      exact_mod_cast hlt
    have he : Int.log 2 (1 / zoom) = (lodLevel zoom : ℤ) :=
      le_antisymm (by omega) hlog_ge
    rw [he, max_eq_right (Int.natCast_nonneg _)]
  · push_neg at h1
    have hlod0 : lodLevel zoom = 0 := by
      rw [lodLevel, lodLevelAux, if_neg (by linarith : ¬(2 : ℚ) ≤ 1 / zoom)]
    have hlogle : Int.log 2 (1 / zoom) ≤ 0 := by
      rw [Int.log_of_right_le_one 2 h1.le]
      exact neg_nonpos.mpr (Int.natCast_nonneg _)
    rw [hlod0, max_eq_left hlogle]
    rfl

theorem prune_idem (now : ℚ) (m : TileMap) :
    prune now (prune now m) = prune now m := by
  funext k
  cases hl : m k with
  | none =>
    have h1 : prune now m k = none := prune_lookup_none hl
    rw [prune_lookup_none h1, h1]
  | some t =>
    by_cases hs : TIMEOUT < now - t.lastUsedTimestamp
    · have h1 : prune now m k = none := prune_lookup_drop hl hs
      rw [prune_lookup_none h1, h1]
    · have h1 : prune now m k = some t := prune_lookup_keep hl hs
      rw [prune_lookup_keep h1 hs, h1]

end TileManager

/-! ### Claim theorems -/

/-- C2: Every tile key string the cache generates has the 4-field format
`layerId:level:tx:ty` (the level included), when parsed back it yields the
original fields, and a legacy 3-field key `layerId:tx:ty` is accepted by the
parser and interpreted as level 0. -/
theorem c2_key_format :
    (∀ (lid : JStr) (tx ty : ℤ) (level : ℕ), ':' ∉ lid →
      splitChar ':' (getTileKey lid tx ty level) =
        [lid, intToChars level, intToChars tx, intToChars ty] ∧
      parseTileKey (getTileKey lid tx ty level) = some (lid, (level : ℤ), tx, ty)) ∧
    (∀ (lid : JStr) (tx ty : ℤ), ':' ∉ lid →
      parseTileKey (legacyGetTileKey lid tx ty) = some (lid, 0, tx, ty)) :=
  ⟨fun _ tx ty level h =>
    ⟨splitChar_getTileKey h tx ty level, parseTileKey_getTileKey h tx ty level⟩,
   fun _ tx ty h => parseTileKey_legacy h tx ty⟩

/-- Witness for C2 at a concrete layer id and coordinates. -/
theorem c2_key_format_witness :
    (':' ∉ (['a'] : JStr)) ∧
    parseTileKey (getTileKey ['a'] (-1) 2 3) = some (['a'], ((3 : ℕ) : ℤ), -1, 2) ∧
    parseTileKey (legacyGetTileKey ['a'] (-1) 2) = some (['a'], 0, -1, 2) :=
  ⟨by decide, (c2_key_format.1 ['a'] (-1) 2 3 (by decide)).2,
    c2_key_format.2 ['a'] (-1) 2 (by decide)⟩

/-- C10: `saveTile` is a no-op — tile map and store unchanged, no put
issued — whenever the keyed record is absent, has a null texture, or has a
status other than ready; a put is issued only for a resident ready record
with a texture, and it writes that record's read-back blob at the key.  The
tile map is never changed by `saveTile`. -/
theorem c10_saveTile_guard :
    (∀ (m : TileMap) (store : Store) (putOk : JStr → Bool) (lid : JStr)
        (tx ty : ℤ) (level : ℕ),
      (m (getTileKey lid tx ty level) = none ∨
        (∃ t, m (getTileKey lid tx ty level) = some t ∧
          (t.texture = none ∨ ¬t.status = TileStatus.ready))) →
      TileManager.saveTile m store putOk lid tx ty level = (m, store, none)) ∧
    (∀ (m : TileMap) (store : Store) (putOk : JStr → Bool) (lid : JStr)
        (tx ty : ℤ) (level : ℕ) (k : JStr) (b : Blob),
      (TileManager.saveTile m store putOk lid tx ty level).2.2 = some (k, b) →
      ∃ t buf, m (getTileKey lid tx ty level) = some t ∧
        t.texture = some buf ∧ t.status = TileStatus.ready ∧
        k = getTileKey lid tx ty level ∧ b = bufToBlob buf) ∧
    (∀ (m : TileMap) (store : Store) (putOk : JStr → Bool) (lid : JStr)
        (tx ty : ℤ) (level : ℕ),
      (TileManager.saveTile m store putOk lid tx ty level).1 = m) := by
  refine ⟨?_, ?_, ?_⟩
  · intro m store putOk lid tx ty level h
    rcases h with hnone | ⟨t, ht, hcase⟩
    · simp only [TileManager.saveTile, hnone]
    · cases htex : t.texture with
      | none => simp only [TileManager.saveTile, ht, htex]
      | some buf =>
        rcases hcase with hc | hc
        · rw [htex] at hc
          cases hc
        · simp only [TileManager.saveTile, ht, htex, if_neg hc]
  · intro m store putOk lid tx ty level k b h
    cases hm : m (getTileKey lid tx ty level) with
    | none =>
      simp only [TileManager.saveTile, hm] at h
      cases h
    | some t =>
      cases htex : t.texture with
      | none =>
        simp only [TileManager.saveTile, hm, htex] at h
        cases h
      | some buf =>
        by_cases hs : t.status = TileStatus.ready
        · simp only [TileManager.saveTile, hm, htex, if_pos hs] at h
          injection h with h2
          injection h2 with hk hb
          exact ⟨t, buf, rfl, htex, hs, hk.symm, hb.symm⟩
        · simp only [TileManager.saveTile, hm, htex, if_neg hs] at h
          cases h
  · intro m store putOk lid tx ty level
    cases hm : m (getTileKey lid tx ty level) with
    | none => simp only [TileManager.saveTile, hm]
    | some t =>
      cases htex : t.texture with
      | none => simp only [TileManager.saveTile, hm, htex]
      | some buf =>
        by_cases hs : t.status = TileStatus.ready
        · simp only [TileManager.saveTile, hm, htex, if_pos hs]
        · simp only [TileManager.saveTile, hm, htex, if_neg hs]

/-- Witness for C10: a loading record with a null texture is not saved, and
the empty map is left untouched. -/
theorem c10_saveTile_guard_witness :
    TileManager.saveTile mapLoadingA emptyStore (fun _ => true) ['a'] 0 0 0 =
      (mapLoadingA, emptyStore, none) ∧
    TileManager.saveTile emptyMap emptyStore (fun _ => true) ['a'] 0 0 0 =
      (emptyMap, emptyStore, none) :=
  ⟨c10_saveTile_guard.1 mapLoadingA emptyStore (fun _ => true) ['a'] 0 0 0
      (Or.inr ⟨⟨none, TileStatus.loading, 0⟩, rfl, Or.inl rfl⟩),
   c10_saveTile_guard.1 emptyMap emptyStore (fun _ => true) ['a'] 0 0 0
      (Or.inl rfl)⟩

/-- Counterexample to C3 as stated: one dirty key whose record is resident,
ready and textured, with a store whose writes all fail; after
`saveDirtyTiles` the key has been removed from the dirty set even though
nothing was written to the store. -/
theorem c3_counterexample :
    (CanvasManager.saveDirtyTiles mapReadyA emptyStore (fun _ => false)
        [legacyGetTileKey ['a'] 0 0]).1 = [] ∧
    (CanvasManager.saveDirtyTiles mapReadyA emptyStore (fun _ => false)
        [legacyGetTileKey ['a'] 0 0]).2 (getTileKey ['a'] 0 0 0) = none ∧
    mapReadyA (getTileKey ['a'] 0 0 0) =
      some ⟨some blank, TileStatus.ready, 0⟩ :=
  ⟨rfl, rfl, rfl⟩

/-- C3 (amended): when a flush of dirty tiles is initiated, `saveDirtyTiles`
starts the saves and then clears the whole dirty set unconditionally and
synchronously, regardless of whether any persistent write succeeds; a key
whose write fails is dropped from the dirty set (the store is left
unchanged for it) and is not retried on the next flush. -/
theorem c3_flush_clears_unconditionally :
    (∀ (m : TileMap) (store : Store) (putOk : JStr → Bool) (dirty : List JStr),
      (CanvasManager.saveDirtyTiles m store putOk dirty).1 = []) ∧
    (∀ (m : TileMap) (store : Store) (putOk : JStr → Bool) (k lid s1 s2 : JStr)
        (tx ty : ℤ),
      splitChar ':' k = [lid, s1, s2] →
      charsToInt s1 = some tx → charsToInt s2 = some ty →
      putOk (getTileKey lid tx ty 0) = false →
      ((CanvasManager.saveDirtyTiles m store putOk [k]).2 = store ∧
        (CanvasManager.saveDirtyTiles m store putOk [k]).1 = [])) := by
  refine ⟨fun _ _ _ _ => rfl, ?_⟩
  intro m store putOk k lid s1 s2 tx ty hsplit h1 h2 hput
  refine ⟨?_, rfl⟩
  simp only [CanvasManager.saveDirtyTiles, List.foldl_cons, List.foldl_nil,
    hsplit, h1, h2]
  exact TileManager.saveTile_store_of_putFail hput

/-- Witness for C3 (amended) at a concrete dirty key with a failing store. -/
theorem c3_flush_witness :
    (CanvasManager.saveDirtyTiles mapReadyA emptyStore (fun _ => false)
        [legacyGetTileKey ['a'] 0 0]).2 = emptyStore ∧
    (CanvasManager.saveDirtyTiles mapReadyA emptyStore (fun _ => false)
        [legacyGetTileKey ['a'] 0 0]).1 = [] :=
  c3_flush_clears_unconditionally.2 mapReadyA emptyStore (fun _ => false)
    (legacyGetTileKey ['a'] 0 0) ['a'] (intToChars 0) (intToChars 0) 0 0
    (by decide) (by decide) (by decide) rfl

/-- Counterexample to C4 as stated: a record whose status is Loading and
whose timeout has elapsed is removed by the prune scan. -/
theorem c4_counterexample :
    mapLoadingA (getTileKey ['a'] 0 0 0) = some ⟨none, TileStatus.loading, 0⟩ ∧
    TileManager.prune 2001 mapLoadingA (getTileKey ['a'] 0 0 0) = none :=
  ⟨rfl,
   TileManager.prune_lookup_drop rfl
     (by rw [TileManager.TIMEOUT]; norm_num)⟩

/-- C4 (amended): the prune scan removes a Loading record by exactly the
same timestamp rule as any other record — a Loading record past the timeout
is evicted by the scan; a load that later completes (successfully or with
an error) for a key that holds no record leaves the map unchanged,
silently discarding the result. -/
theorem c4_loading_pruned_like_any :
    (∀ (now : ℚ) (m : TileMap) (k : JStr) (t : TileState),
      m k = some t → t.status = TileStatus.loading →
      (TileManager.prune now m k = none ↔
        TileManager.TIMEOUT < now - t.lastUsedTimestamp)) ∧
    (∀ (store : Store) (m : TileMap) (lid : JStr) (tx ty : ℤ) (level : ℕ),
      m (getTileKey lid tx ty level) = none →
      TileManager.loadTileData store m lid tx ty level = m) ∧
    (∀ (m : TileMap) (k : JStr), m k = none →
      TileManager.loadTileError m k = m) := by
  refine ⟨?_, ?_, ?_⟩
  · intro now m k t ht _
    constructor
    · intro hnone
      by_contra hfresh
      rw [TileManager.prune_lookup_keep ht hfresh] at hnone
      cases hnone
    · intro hstale
      exact TileManager.prune_lookup_drop ht hstale
  · intro store m lid tx ty level h
    exact TileManager.loadTileData_absent h
  · intro m k h
    exact TileManager.loadTileError_absent h

/-- Witness for C4 (amended) at a concrete loading record and empty map. -/
theorem c4_loading_pruned_witness :
    (TileManager.prune 2001 mapLoadingA (getTileKey ['a'] 0 0 0) = none ↔
      TileManager.TIMEOUT <
        2001 - (⟨none, TileStatus.loading, 0⟩ : TileState).lastUsedTimestamp) ∧
    TileManager.loadTileData emptyStore emptyMap ['a'] 0 0 0 = emptyMap ∧
    TileManager.loadTileError emptyMap (getTileKey ['a'] 0 0 0) = emptyMap :=
  ⟨c4_loading_pruned_like_any.1 2001 mapLoadingA (getTileKey ['a'] 0 0 0)
      ⟨none, TileStatus.loading, 0⟩ rfl rfl,
   c4_loading_pruned_like_any.2.1 emptyStore emptyMap ['a'] 0 0 0 rfl,
   c4_loading_pruned_like_any.2.2 emptyMap (getTileKey ['a'] 0 0 0) rfl⟩

/-- C5: the eviction scan removes a resident record exactly when
`now - lastUsed` exceeds the fixed 2000 ms timeout, regardless of status;
its texture is destroyed exactly when such a removed record held one; a
record touched at time `t` is still resident when pruned at `t + 1999` and
removed when pruned at `t + 2001`; and every `update` call pipes the
scanned map through this prune scan. -/
theorem c5_eviction :
    (∀ (now : ℚ) (m : TileMap) (k : JStr) (t : TileState), m k = some t →
      (TileManager.prune now m k = none ↔
        TileManager.TIMEOUT < now - t.lastUsedTimestamp)) ∧
    (∀ (now : ℚ) (m : TileMap) (k : JStr) (t : TileState), m k = some t →
      (TileManager.pruneDestroyed now m k = true ↔
        (TileManager.TIMEOUT < now - t.lastUsedTimestamp ∧ t.texture.isSome))) ∧
    (∀ (m : TileMap) (k : JStr) (t : TileState), m k = some t →
      TileManager.prune (t.lastUsedTimestamp + 1999) m k = some t ∧
      TileManager.prune (t.lastUsedTimestamp + 2001) m k = none) ∧
    (∀ (vp : ViewportState) (layers : List Layer) (now : ℚ) (m : TileMap),
      TileManager.update vp layers now m =
        (TileManager.prune now
          (TileManager.scanTiles now (TileManager.scanItems vp layers) m).1,
         (TileManager.scanTiles now (TileManager.scanItems vp layers) m).2)) := by
  refine ⟨?_, ?_, ?_, fun _ _ _ _ => rfl⟩
  · intro now m k t ht
    constructor
    · intro hnone
      by_contra hfresh
      rw [TileManager.prune_lookup_keep ht hfresh] at hnone
      cases hnone
    · intro hstale
      exact TileManager.prune_lookup_drop ht hstale
  · intro now m k t ht
    simp only [TileManager.pruneDestroyed, ht, Bool.and_eq_true, decide_eq_true_iff]
  · intro m k t ht
    constructor
    · refine TileManager.prune_lookup_keep ht ?_
      rw [show t.lastUsedTimestamp + 1999 - t.lastUsedTimestamp = 1999 from by ring,
        TileManager.TIMEOUT]
      norm_num
    · refine TileManager.prune_lookup_drop ht ?_
      rw [show t.lastUsedTimestamp + 2001 - t.lastUsedTimestamp = 2001 from by ring,
        TileManager.TIMEOUT]
      norm_num

/-- Witness for C5 at a concrete error-status record: an Error record is
evicted by the same boundary as any other. -/
theorem c5_eviction_witness :
    mapReadyA (getTileKey ['a'] 0 0 0) = some ⟨some blank, TileStatus.ready, 0⟩ ∧
    (TileManager.prune
        ((⟨some blank, TileStatus.ready, 0⟩ : TileState).lastUsedTimestamp + 1999)
        mapReadyA (getTileKey ['a'] 0 0 0) =
      some ⟨some blank, TileStatus.ready, 0⟩ ∧
     TileManager.prune
        ((⟨some blank, TileStatus.ready, 0⟩ : TileState).lastUsedTimestamp + 2001)
        mapReadyA (getTileKey ['a'] 0 0 0) = none) :=
  ⟨rfl, c5_eviction.2.2.1 mapReadyA (getTileKey ['a'] 0 0 0)
    ⟨some blank, TileStatus.ready, 0⟩ rfl⟩

/-- C1: for every tile key, a key that already holds a record starts no
second load: `forceLoadTile` on a resident key returns without touching the
map or starting a load; an `update` pass never starts a load for a key
resident on entry; no single `update` starts two loads for the same key;
and a second `update` with unchanged viewport, layers and clock returns the
identical resident map and starts no loads at all. -/
theorem c1_at_most_one_load :
    (∀ (m : TileMap) (lid : JStr) (tx ty : ℤ) (level : ℕ) (now : ℚ),
      (m (getTileKey lid tx ty level)).isSome →
      TileManager.forceLoadTile m lid tx ty level now = (m, [])) ∧
    (∀ (vp : ViewportState) (layers : List Layer) (now : ℚ) (m : TileMap)
        (k : JStr),
      (m k).isSome → k ∉ (TileManager.update vp layers now m).2) ∧
    (∀ (vp : ViewportState) (layers : List Layer) (now : ℚ) (m : TileMap),
      (TileManager.update vp layers now m).2.Nodup) ∧
    (∀ (vp : ViewportState) (layers : List Layer) (now : ℚ) (m : TileMap),
      TileManager.update vp layers now (TileManager.update vp layers now m).1 =
        ((TileManager.update vp layers now m).1, [])) := by
  refine ⟨?_, ?_, ?_, ?_⟩
  · intro m lid tx ty level now h
    obtain ⟨t, ht⟩ := Option.isSome_iff_exists.mp h
    simp only [TileManager.forceLoadTile, ht]
  · intro vp layers now m k h
    exact (TileManager.scanFold_resident_not_load now
      (TileManager.scanItems vp layers) (m, []) h (List.not_mem_nil k)).2
  · intro vp layers now m
    exact (TileManager.scanFold_wf now (TileManager.scanItems vp layers)
      (m, ([] : List JStr)) List.nodup_nil
      (fun k hk => absurd hk (List.not_mem_nil k))).1
  · intro vp layers now m
    have hpre : ∀ it ∈ TileManager.scanItems vp layers,
        (∀ t', (TileManager.update vp layers now m).1 it.2 = some t' →
          t'.lastUsedTimestamp = now) ∧
        (it.1.visible = true →
          ((TileManager.update vp layers now m).1 it.2).isSome) := by
      intro it hit
      have hmem : (it.1, it.2) ∈ TileManager.scanItems vp layers := hit
      constructor
      · intro t' ht'
        have hSk : (TileManager.scanTiles now
            (TileManager.scanItems vp layers) m).1 it.2 = some t' :=
          TileManager.prune_subset ht'
        exact TileManager.scanFold_now_scanned now
          (TileManager.scanItems vp layers) (m, ([] : List JStr)) hmem t' hSk
      · intro hv
        obtain ⟨t0, ht0⟩ := Option.isSome_iff_exists.mp
          (TileManager.scanFold_visible_some now
            (TileManager.scanItems vp layers) (m, ([] : List JStr)) hmem hv)
        have hnow := TileManager.scanFold_now_scanned now
          (TileManager.scanItems vp layers) (m, ([] : List JStr)) hmem t0 ht0
        have hkeep : (TileManager.update vp layers now m).1 it.2 = some t0 := by
          show TileManager.prune now (TileManager.scanTiles now
            (TileManager.scanItems vp layers) m).1 it.2 = some t0
          refine TileManager.prune_lookup_keep ht0 ?_
          rw [hnow, sub_self, TileManager.TIMEOUT]
          norm_num
        rw [hkeep]
        rfl
    have hscan : TileManager.scanTiles now (TileManager.scanItems vp layers)
        (TileManager.update vp layers now m).1 =
        ((TileManager.update vp layers now m).1, []) :=
      TileManager.scanFold_id hpre
    show (TileManager.prune now (TileManager.scanTiles now
        (TileManager.scanItems vp layers)
        (TileManager.update vp layers now m).1).1,
      (TileManager.scanTiles now (TileManager.scanItems vp layers)
        (TileManager.update vp layers now m).1).2) =
      ((TileManager.update vp layers now m).1, [])
    rw [hscan]
    show (TileManager.prune now (TileManager.update vp layers now m).1,
        ([] : List JStr)) = ((TileManager.update vp layers now m).1, [])
    have hpi : TileManager.prune now (TileManager.update vp layers now m).1 =
        (TileManager.update vp layers now m).1 :=
      TileManager.prune_idem now
        ((TileManager.scanTiles now (TileManager.scanItems vp layers) m).1)
    rw [hpi]

/-- Witness for C1: a resident key is not reloaded by `forceLoadTile`, and a
resident key is never among the loads started by an update. -/
theorem c1_at_most_one_load_witness :
    TileManager.forceLoadTile mapReadyA ['a'] 0 0 0 9 = (mapReadyA, []) ∧
    getTileKey ['a'] 0 0 0 ∉
      (TileManager.update ⟨0, 0, 1, 512, 512⟩ [⟨['a'], true⟩] 9 mapReadyA).2 :=
  ⟨c1_at_most_one_load.1 mapReadyA ['a'] 0 0 0 9 rfl,
   c1_at_most_one_load.2.1 ⟨0, 0, 1, 512, 512⟩ [⟨['a'], true⟩] 9 mapReadyA
     (getTileKey ['a'] 0 0 0) rfl⟩

/-- C9: during an `update` scan a record that already exists at a scanned
key has exactly its `lastUsedTimestamp` refreshed (texture and status
untouched) whether or not its layer is visible; keys not scanned are left
exactly as they were; a record is created at a previously absent key only
if some visible layer scanned that key; and `update` is this scan followed
by the prune pass. -/
theorem c9_scan_refresh :
    (∀ (now : ℚ) (items : List (Layer × JStr)) (m : TileMap) (la : Layer)
        (k : JStr) (t : TileState),
      (la, k) ∈ items → m k = some t →
      (TileManager.scanTiles now items m).1 k = some ⟨t.texture, t.status, now⟩) ∧
    (∀ (now : ℚ) (items : List (Layer × JStr)) (m : TileMap) (k : JStr),
      (∀ it ∈ items, it.2 ≠ k) →
      (TileManager.scanTiles now items m).1 k = m k) ∧
    (∀ (now : ℚ) (items : List (Layer × JStr)) (m : TileMap) (k : JStr),
      m k = none → ((TileManager.scanTiles now items m).1 k).isSome →
      ∃ la, (la, k) ∈ items ∧ la.visible = true) ∧
    (∀ (vp : ViewportState) (layers : List Layer) (now : ℚ) (m : TileMap),
      TileManager.update vp layers now m =
        (TileManager.prune now
          (TileManager.scanTiles now (TileManager.scanItems vp layers) m).1,
         (TileManager.scanTiles now (TileManager.scanItems vp layers) m).2)) := by
  refine ⟨?_, ?_, ?_, fun _ _ _ _ => rfl⟩
  · intro now items m la k t hm ht
    exact TileManager.scanFold_refresh_main now items (m, []) hm ht
  · intro now items m k h
    exact TileManager.scanFold_lookup_ne now items (m, []) h
  · intro now items m k hnone hsome
    rcases TileManager.scanFold_some_origin now items (m, ([] : List JStr)) hsome
      with h' | h'
    · have h'' : (m k).isSome = true := h'
      rw [hnone] at h''
      simp at h''
    · rcases TileManager.scanFold_loads_origin now items (m, ([] : List JStr)) h'
        with h'' | h''
      · exact absurd h'' (List.not_mem_nil k)
      · exact h''

/-- Witness for C9: a record of an invisible layer scanned at time 7 has its
timestamp refreshed to 7, keeping texture and status. -/
theorem c9_scan_refresh_witness :
    ((⟨['a'], false⟩ : Layer), getTileKey ['a'] 0 0 0) ∈
      [((⟨['a'], false⟩ : Layer), getTileKey ['a'] 0 0 0)] ∧
    (TileManager.scanTiles 7
        [((⟨['a'], false⟩ : Layer), getTileKey ['a'] 0 0 0)] mapReadyA).1
        (getTileKey ['a'] 0 0 0) =
      some ⟨(⟨some blank, TileStatus.ready, 0⟩ : TileState).texture,
        (⟨some blank, TileStatus.ready, 0⟩ : TileState).status, 7⟩ :=
  ⟨List.mem_singleton.mpr rfl,
   c9_scan_refresh.1 7 [((⟨['a'], false⟩ : Layer), getTileKey ['a'] 0 0 0)]
     mapReadyA ⟨['a'], false⟩ (getTileKey ['a'] 0 0 0)
     ⟨some blank, TileStatus.ready, 0⟩ (List.mem_singleton.mpr rfl) rfl⟩

/-- C7: loading a tile at level `L > 0` when neither the tile map nor the
persistent store holds the tile or any of its four level-`(L-1)` children
completes successfully: the record becomes ready with an entirely
blank/transparent buffer — never an error. -/
theorem c7_lod_all_children_absent :
    ∀ (store : Store) (m : TileMap) (lid : JStr) (tx ty : ℤ) (level : ℕ)
      (t0 : TileState),
      0 < level →
      m (getTileKey lid tx ty level) = some t0 →
      store (getTileKey lid tx ty level) = none →
      m (TileManager.childKey lid level tx ty 0 0) = none →
      m (TileManager.childKey lid level tx ty 1 0) = none →
      m (TileManager.childKey lid level tx ty 0 1) = none →
      m (TileManager.childKey lid level tx ty 1 1) = none →
      store (TileManager.childKey lid level tx ty 0 0) = none →
      store (TileManager.childKey lid level tx ty 1 0) = none →
      store (TileManager.childKey lid level tx ty 0 1) = none →
      store (TileManager.childKey lid level tx ty 1 1) = none →
      (TileManager.loadTileData store m lid tx ty level
          (getTileKey lid tx ty level) =
        some ⟨some blank, TileStatus.ready, t0.lastUsedTimestamp⟩ ∧
      ∀ i, blank i = 0) := by
  intro store m lid tx ty level t0 hlev hm hsk hm00 hm10 hm01 hm11 hs00 hs10 hs01 hs11
  have hq00 : TileManager.childSource m store
      (TileManager.childKey lid level tx ty 0 0) = none := by
    simp [TileManager.childSource, hm00, hs00]
  have hq10 : TileManager.childSource m store
      (TileManager.childKey lid level tx ty 1 0) = none := by
    simp [TileManager.childSource, hm10, hs10]
  have hq01 : TileManager.childSource m store
      (TileManager.childKey lid level tx ty 0 1) = none := by
    simp [TileManager.childSource, hm01, hs01]
  have hq11 : TileManager.childSource m store
      (TileManager.childKey lid level tx ty 1 1) = none := by
    simp [TileManager.childSource, hm11, hs11]
  have hgen : TileManager.generateLODTile m store lid level tx ty = blank := by
    simp [TileManager.generateLODTile, hq00, hq10, hq01, hq11]
  have hres : TileManager.loadTileData store m lid tx ty level =
      mapSet m (getTileKey lid tx ty level)
        ⟨some blank, TileStatus.ready, t0.lastUsedTimestamp⟩ := by
    simp only [TileManager.loadTileData, hsk, hm]
    rw [if_pos hlev, hgen]
  refine ⟨?_, fun _ => rfl⟩
  rw [hres]
  exact TileManager.mapSet_lookup_self _ _ _

/-- Witness for C7: a loading level-1 record over an empty store and no
resident children resolves to a ready record with the blank buffer. -/
theorem c7_lod_all_children_absent_witness :
    TileManager.loadTileData emptyStore mapLoadingLOD ['a'] 0 0 1
        (getTileKey ['a'] 0 0 1) =
      some ⟨some blank, TileStatus.ready,
        (⟨none, TileStatus.loading, 5⟩ : TileState).lastUsedTimestamp⟩ :=
  (c7_lod_all_children_absent emptyStore mapLoadingLOD ['a'] 0 0 1
    ⟨none, TileStatus.loading, 5⟩ (by decide) rfl rfl rfl rfl rfl rfl rfl rfl
    rfl rfl).1

/-- Counterexample to C8 as stated: the error transition applied to a key
that (after eviction and a fresh reload) holds a ready record with a
texture produces an Error record whose texture is still present, violating
the invariant that a Loading or Error record has an absent texture. -/
theorem c8_counterexample :
    mapReadyA (getTileKey ['a'] 0 0 0) = some ⟨some blank, TileStatus.ready, 0⟩ ∧
    TileManager.loadTileError mapReadyA (getTileKey ['a'] 0 0 0)
        (getTileKey ['a'] 0 0 0) =
      some ⟨some blank, TileStatus.error, 0⟩ ∧
    (⟨some blank, TileStatus.error, 0⟩ : TileState).texture.isSome = true :=
  ⟨rfl, rfl, rfl⟩

/-- C8 (amended): record creation (`forceLoadTile`, `update`), successful
load completion, and eviction preserve the invariant that a record's
texture is present iff its status is ready; the error transition preserves
it only when the record at the key still has an absent texture (the
Loading record the failing load created) — applied to a Ready record with
a texture (reachable after eviction and reload) it violates the
invariant. -/
theorem c8_invariant_ops :
    (∀ (m : TileMap) (lid : JStr) (tx ty : ℤ) (level : ℕ) (now : ℚ),
      TextureStatusInv m →
      TextureStatusInv (TileManager.forceLoadTile m lid tx ty level now).1) ∧
    (∀ (vp : ViewportState) (layers : List Layer) (now : ℚ) (m : TileMap),
      TextureStatusInv m →
      TextureStatusInv (TileManager.update vp layers now m).1) ∧
    (∀ (store : Store) (m : TileMap) (lid : JStr) (tx ty : ℤ) (level : ℕ),
      TextureStatusInv m →
      TextureStatusInv (TileManager.loadTileData store m lid tx ty level)) ∧
    (∀ (m : TileMap) (k : JStr),
      TextureStatusInv m → (∀ t, m k = some t → t.texture = none) →
      TextureStatusInv (TileManager.loadTileError m k)) := by
  refine ⟨?_, ?_, ?_, ?_⟩
  · intro m lid tx ty level now h
    cases hm : m (getTileKey lid tx ty level) with
    | some t =>
      simp only [TileManager.forceLoadTile, hm]
      exact h
    | none =>
      simp only [TileManager.forceLoadTile, hm]
      exact TileManager.mapSet_inv h (by simp)
  · intro vp layers now m h
    exact TileManager.prune_inv
      (TileManager.scanFold_inv now (TileManager.scanItems vp layers)
        (m, ([] : List JStr)) h)
  · intro store m lid tx ty level h
    cases hm : m (getTileKey lid tx ty level) with
    | none =>
      rw [TileManager.loadTileData_absent hm]
      exact h
    | some t =>
      obtain ⟨buf, hres⟩ := TileManager.loadTileData_resident store hm
      rw [hres]
      exact TileManager.mapSet_inv h (by simp)
  · intro m k h htex
    cases hm : m k with
    | none =>
      rw [TileManager.loadTileError_absent hm]
      exact h
    | some t =>
      rw [TileManager.loadTileError_resident hm]
      refine TileManager.mapSet_inv h ?_
      have ht := htex t hm
      simp [ht]

/-- Witness for C8 (amended): the error transition fired on a resident
Loading record whose texture is absent really turns it into an Error
record, and the invariant is preserved. -/
theorem c8_invariant_ops_witness :
    mapLoadingA (getTileKey ['a'] 0 0 0) =
      some ⟨none, TileStatus.loading, 0⟩ ∧
    TileManager.loadTileError mapLoadingA (getTileKey ['a'] 0 0 0)
        (getTileKey ['a'] 0 0 0) =
      some ⟨none, TileStatus.error, 0⟩ ∧
    TextureStatusInv
      (TileManager.loadTileError mapLoadingA (getTileKey ['a'] 0 0 0)) :=
  ⟨rfl, rfl,
   c8_invariant_ops.2.2.2 mapLoadingA (getTileKey ['a'] 0 0 0)
     (by
       intro k t h
       simp only [mapLoadingA] at h
       split at h
       · injection h with h2
         rw [← h2]
         decide
       · simp at h)
     (fun t h => by
       have h0 : mapLoadingA (getTileKey ['a'] 0 0 0) =
           some ⟨none, TileStatus.loading, 0⟩ := rfl
       rw [h0] at h
       injection h with h2
       rw [← h2])⟩

/-- C6: for every viewport with positive zoom the selected LOD level equals
`max 0 ⌊log₂ (1 / zoom)⌋` — in particular it is never negative; the
visible tile index rectangle is the floor-division of the visible world
rectangle's corners by `TILE_SIZE * 2 ^ level`; and the 512×512 viewport at
zoom 1 centered at the origin resolves to level 0 with the tile rectangle
spanning −1..1 in both axes for `TILE_SIZE = 256`. -/
theorem c6_lod_selection :
    (∀ zoom : ℚ, 0 < zoom →
      ((TileManager.lodLevel zoom : ℤ) = max 0 (Int.log 2 (1 / zoom)))) ∧
    (∀ vp : ViewportState,
      TileManager.visibleRect vp =
        ⟨⌊(vp.x - vp.width / 2 / vp.zoom) /
            ((TILE_SIZE : ℚ) * 2 ^ TileManager.lodLevel vp.zoom)⌋,
         ⌊(vp.x + vp.width / 2 / vp.zoom) /
            ((TILE_SIZE : ℚ) * 2 ^ TileManager.lodLevel vp.zoom)⌋,
         ⌊(vp.y - vp.height / 2 / vp.zoom) /
            ((TILE_SIZE : ℚ) * 2 ^ TileManager.lodLevel vp.zoom)⌋,
         ⌊(vp.y + vp.height / 2 / vp.zoom) /
            ((TILE_SIZE : ℚ) * 2 ^ TileManager.lodLevel vp.zoom)⌋⟩) ∧
    TileManager.lodLevel 1 = 0 ∧
    TileManager.visibleRect ⟨0, 0, 1, 512, 512⟩ = ⟨-1, 1, -1, 1⟩ := by
  have hlod : TileManager.lodLevel 1 = 0 := by
    have h := TileManager.lodLevel_eq_log (show (0 : ℚ) < 1 from one_pos)
    simp at h
    exact_mod_cast h
  refine ⟨fun zoom h => TileManager.lodLevel_eq_log h, fun vp => rfl, hlod, ?_⟩
  have hvr : TileManager.visibleRect ⟨0, 0, 1, 512, 512⟩ =
      ⟨⌊((0 : ℚ) - 512 / 2 / 1) /
          ((TILE_SIZE : ℚ) * 2 ^ TileManager.lodLevel 1)⌋,
       ⌊((0 : ℚ) + 512 / 2 / 1) /
          ((TILE_SIZE : ℚ) * 2 ^ TileManager.lodLevel 1)⌋,
       ⌊((0 : ℚ) - 512 / 2 / 1) /
          ((TILE_SIZE : ℚ) * 2 ^ TileManager.lodLevel 1)⌋,
       ⌊((0 : ℚ) + 512 / 2 / 1) /
          ((TILE_SIZE : ℚ) * 2 ^ TileManager.lodLevel 1)⌋⟩ := rfl
  rw [hvr, hlod]
  have e1 : ((0 : ℚ) - 512 / 2 / 1) / ((TILE_SIZE : ℚ) * 2 ^ (0 : ℕ)) = -1 := by
    norm_num [TILE_SIZE]
  have e2 : ((0 : ℚ) + 512 / 2 / 1) / ((TILE_SIZE : ℚ) * 2 ^ (0 : ℕ)) = 1 := by
    norm_num [TILE_SIZE]
  rw [e1, e2]
  have f1 : ⌊(-1 : ℚ)⌋ = -1 := by
    rw [Int.floor_eq_iff]
    norm_num
  rw [f1, Int.floor_one]

/-- Witness for C6 at zoom 1. -/
theorem c6_lod_selection_witness :
    (0 : ℚ) < 1 ∧
    ((TileManager.lodLevel 1 : ℤ) = max 0 (Int.log 2 ((1 : ℚ) / 1))) :=
  ⟨one_pos, c6_lod_selection.1 1 one_pos⟩

end InfiniteCanvas
